import Mathlib

/-!
Verification of the CloudBolt tiered pricing engine (`calculatorapp.py`).

The engine is a list of pricing tiers together with three pure operations on
rational spend amounts: `calculate_flex_price`, `calculate_commit_price` and
`recommend_commit_tier`, plus the constructor `PricingCalculator`.
All monetary arithmetic in the source is exact decimal arithmetic on the
given literals, embedded here over `ℚ`.
-/

/-- One pricing bracket: the dict `{"lower": _, "upper": _, "rate": _}`. -/
structure Tier where
  lower : ℚ
  upper : ℚ
  rate  : ℚ
deriving DecidableEq, Repr

/-- The module-level constant `TIERS` of the source, verbatim. -/
def TIERS : List Tier := [
  ⟨0, 125000, 0.0330⟩,
  ⟨125001, 250000, 0.0315⟩,
  ⟨250001, 416667, 0.0297⟩,
  ⟨416668, 833333, 0.0264⟩,
  ⟨833334, 1666667, 0.0231⟩,
  ⟨1666668, 2500000, 0.0215⟩,
  ⟨2500001, 3333333, 0.0198⟩,
  ⟨3333334, 4166667, 0.0182⟩,
  ⟨4166668, 6250000, 0.0165⟩,
  ⟨6250001, 8333333, 0.0132⟩,
  ⟨8333334, 12500000, 0.0116⟩,
  ⟨12500001, 16666667, 0.0107⟩,
  ⟨16666668, 20833333, 0.0100⟩,
  ⟨20833334, 25000000, 0.0095⟩,
  ⟨25000001, 29166667, 0.0091⟩,
  ⟨29166668, 33333333, 0.0088⟩,
  ⟨33333334, 41666667, 0.0084⟩,
  ⟨41666668, 62500000, 0.0069⟩,
  ⟨62500001, 83333333, 0.0062⟩,
  ⟨83333334, 104166667, 0.0054⟩,
  ⟨104166668, 125000000, 0.0050⟩,
  ⟨125000001, 145833333, 0.0046⟩,
  ⟨145833334, 166666667, 0.0043⟩,
  ⟨166666668, 187500000, 0.0040⟩,
  ⟨187500001, 208333333, 0.0038⟩,
  ⟨208333334, 250000000, 0.0034⟩]

/-- The accumulation loop of `calculate_flex_price`: walk the tiers keeping
`remaining`; the Python loop breaks when `remaining <= 0`, otherwise bills
`tier_spend = min(remaining, tier["upper"] - tier["lower"])` at the tier's
rate and subtracts it from `remaining`. -/
def flexAccum : List Tier → ℚ → ℚ
  | [], _ => 0
  | t :: ts, remaining =>
    if remaining ≤ 0 then 0
    else
      let tier_spend := min remaining (t.upper - t.lower)
      tier_spend * t.rate + flexAccum ts (remaining - tier_spend)

/-- `PricingCalculator.calculate_flex_price`: the tier accumulation followed
by the $2,500 minimum applied when `monthly_spend <= 125_000`. -/
def calculate_flex_price (tiers : List Tier) (monthly_spend : ℚ) : ℚ :=
  let total := flexAccum tiers monthly_spend
  if monthly_spend ≤ 125000 then max total 2500
  else total

/-- The engine as shipped: flex pricing over the static `TIERS` table. -/
def flexPrice (monthly_spend : ℚ) : ℚ :=
  calculate_flex_price TIERS monthly_spend

/-- Default tier used to model Python's `self.tiers[-1]` on an empty list;
`TIERS` is non-empty, so it is never actually selected by the engine. -/
def dummyTier : Tier := ⟨0, 0, 0⟩

/-- `PricingCalculator.calculate_commit_price`: `commit_amount == 0`
degenerates to flex; otherwise the commit tier is
`next((tier for tier in self.tiers if tier["upper"] >= commit_amount), self.tiers[-1])`,
the committed block is billed at that tier's rate capped at actual spend, and
any overflow `monthly_spend - commit_amount` is priced by a fresh flex call. -/
def calculate_commit_price (tiers : List Tier) (monthly_spend commit_amount : ℚ) : ℚ :=
  if commit_amount = 0 then calculate_flex_price tiers monthly_spend
  else
    let commit_tier := (tiers.find? (fun t => decide (commit_amount ≤ t.upper))).getD
      (tiers.getLastD dummyTier)
    let commit_rate := commit_tier.rate
    let committed_amount := min monthly_spend commit_amount * commit_rate
    let overflow_amount :=
      if commit_amount < monthly_spend then calculate_flex_price tiers (monthly_spend - commit_amount)
      else 0
    committed_amount + overflow_amount

/-- The engine as shipped: commit pricing over the static `TIERS` table. -/
def commitPrice (monthly_spend commit_amount : ℚ) : ℚ :=
  calculate_commit_price TIERS monthly_spend commit_amount

/-- The membership test of `recommend_commit_tier`'s generator expression:
`monthly_spend >= tier["lower"] and monthly_spend <= tier["upper"]`. -/
def tierContains (monthly_spend : ℚ) (t : Tier) : Bool :=
  decide (t.lower ≤ monthly_spend) && decide (monthly_spend ≤ t.upper)

/-- `PricingCalculator.recommend_commit_tier`: find the first tier containing
`monthly_spend` (falling back to `self.tiers[-1]`), look up its index with
`self.tiers.index(current_tier)`, take the following tier when the index is
not last, and recommend `next_tier["upper"]` exactly when a next tier exists
and `monthly_spend > current_tier["upper"] * 0.8`. -/
def recommend_commit_tier (tiers : List Tier) (monthly_spend : ℚ) : ℚ :=
  let found := tiers.find? (tierContains monthly_spend)
  let current_tier := found.getD (tiers.getLastD dummyTier)
  let tier_index := tiers.findIdx (fun t => decide (t = current_tier))
  let next_tier : Option Tier :=
    if tier_index < tiers.length - 1 then tiers[tier_index + 1]? else none
  match next_tier with
  | some nt => if current_tier.upper * 0.8 < monthly_spend then nt.upper else current_tier.upper
  | none => current_tier.upper

/-- The engine as shipped: tier recommendation over the static `TIERS` table. -/
def recommendCommitTier (monthly_spend : ℚ) : ℚ :=
  recommend_commit_tier TIERS monthly_spend

/-- The state stored by `PricingCalculator.__init__` (the derived pandas
DataFrame is display-only data computed from the same list). -/
structure PricingCalculator where
  tiers : List Tier
deriving DecidableEq

/-- The error the spec requires at construction; carried by the explicit
error channel of `PricingCalculator.init` below. -/
structure ConfigurationError where
  message : String
deriving DecidableEq

/-- `PricingCalculator.__init__` with its potential-failure channel made
explicit: the source body is `self.tiers = tiers; self.df_tiers = ...` and
contains no validation and no raise statement, so the result is always
`Except.ok` with the tier list stored unchanged. -/
def PricingCalculator.init (tiers : List Tier) : Except ConfigurationError PricingCalculator :=
  Except.ok ⟨tiers⟩


/-! ## Specification-side definitions

Each definition below follows the wording of the specification document (not
the source); the theorems compare them with the source embeddings above. -/

/-- One step of the spec's piecewise accumulation, carrying the pair
(accumulated total, remaining spend): bill
`tierSpend = min(remaining, tier.upper - tier.lower)` at `tier.rate`. -/
def flexStep (acc : ℚ × ℚ) (t : Tier) : ℚ × ℚ :=
  let tierSpend := min acc.2 (t.upper - t.lower)
  (acc.1 + tierSpend * t.rate, acc.2 - tierSpend)

/-- The flex algorithm as the spec states it: walk the whole tier table
accumulating tier spends, then clip to `max(accumulated, 2500)` when
`spend ≤ 125000` and return the raw accumulated total otherwise. -/
def flexPriceSpec (spend : ℚ) : ℚ :=
  let accumulated := (TIERS.foldl flexStep (0, spend)).1
  if spend ≤ 125000 then max accumulated 2500 else accumulated

/-- The first tier (in ascending order) whose `upper` is at least `c`. -/
def firstTierUpperGE (c : ℚ) : List Tier → Option Tier
  | [] => none
  | t :: ts => if c ≤ t.upper then some t else firstTierUpperGE c ts

/-- The spec's commit rate: rate of the first tier whose `upper ≥ c`, the
last tier when none exists. -/
def commitRateSpec (c : ℚ) : ℚ :=
  ((firstTierUpperGE c TIERS).getD (TIERS.getLastD dummyTier)).rate

/-- The rate of the (first) tier whose `[lower, upper]` range contains `x`,
the last tier when none contains it. -/
def rateOfTierContaining (x : ℚ) : ℚ :=
  ((TIERS.find? (tierContains x)).getD (TIERS.getLastD dummyTier)).rate

/-- The recommendation walk as the spec states it: at the first tier whose
range contains the spend, recommend the next tier's upper bound when a next
tier exists and the spend is past 80% of the current upper bound, else the
current upper bound; `none` when no tier contains the spend. -/
def recommendAux (monthly_spend : ℚ) : List Tier → Option ℚ
  | [] => none
  | t :: ts =>
    if tierContains monthly_spend t then
      match ts with
      | [] => some t.upper
      | nt :: _ => some (if t.upper * 0.8 < monthly_spend then nt.upper else t.upper)
    else recommendAux monthly_spend ts

/-- The spec's recommendation: the walk above, falling back to the last tier
(which has no next tier, so its upper bound is returned). -/
def recommendSpec (monthly_spend : ℚ) : ℚ :=
  match recommendAux monthly_spend TIERS with
  | some r => r
  | none => (TIERS.getLastD dummyTier).upper

/-- Adjacent lower bounds strictly ascending (spec invariant 2). -/
def sortedAscending : List Tier → Bool
  | [] => true
  | [_] => true
  | t1 :: t2 :: ts => decide (t1.lower < t2.lower) && sortedAscending (t2 :: ts)

/-- Adjacent tiers contiguous and non-overlapping (spec invariant 3):
`tier[i+1].lower == tier[i].upper + 1`. -/
def contiguousTiers : List Tier → Bool
  | [] => true
  | [_] => true
  | t1 :: t2 :: ts => decide (t2.lower = t1.upper + 1) && contiguousTiers (t2 :: ts)

/-- Rates strictly decreasing with tier index (spec invariant 5). -/
def ratesStrictDecreasing : List Tier → Bool
  | [] => true
  | [_] => true
  | t1 :: t2 :: ts => decide (t2.rate < t1.rate) && ratesStrictDecreasing (t2 :: ts)

/-- Modelled from the spec: the TierTable validity predicate that the spec's
`ConfigurationError` contract is stated against (non-empty, first lower bound
zero, sorted ascending, contiguous and non-overlapping, well-formed bounds).
The source constructor contains no counterpart of this check. -/
def validTierTable (ts : List Tier) : Bool :=
  !ts.isEmpty &&
  (match ts.head? with
   | some t => decide (t.lower = 0)
   | none => false) &&
  sortedAscending ts &&
  contiguousTiers ts &&
  ts.all (fun t => decide (t.lower < t.upper))

/-! ## Helper lemmas -/

lemma flexAccum_nil (r : ℚ) : flexAccum [] r = 0 := rfl

lemma flexAccum_cons (t : Tier) (ts : List Tier) (r : ℚ) :
    flexAccum (t :: ts) r =
      if r ≤ 0 then 0
      else min r (t.upper - t.lower) * t.rate + flexAccum ts (r - min r (t.upper - t.lower)) := rfl

lemma flexAccum_nonpos (ts : List Tier) (r : ℚ) (hr : r ≤ 0) : flexAccum ts r = 0 := by
  cases ts with
  | nil => rfl
  | cons t ts => rw [flexAccum_cons, if_pos hr]

lemma tiersOK : ∀ t ∈ TIERS, 0 ≤ t.rate ∧ t.lower ≤ t.upper := by
  intro t ht
  fin_cases ht <;> exact ⟨by norm_num, by norm_num⟩

lemma tiersLowerNonneg : ∀ t ∈ TIERS, (0:ℚ) ≤ t.lower := by
  intro t ht
  fin_cases ht <;> norm_num

lemma flexAccum_nonneg (ts : List Tier) :
    (∀ t ∈ ts, 0 ≤ t.rate ∧ t.lower ≤ t.upper) → ∀ r : ℚ, 0 ≤ flexAccum ts r := by
  induction ts with
  | nil => intro _ r; simp [flexAccum]
  | cons t ts ih =>
    intro h r
    rw [flexAccum_cons]
    by_cases hr : r ≤ 0
    · rw [if_pos hr]
    · rw [if_neg hr]
      push_neg at hr
      obtain ⟨hrate, hlu⟩ := h t (List.mem_cons_self t ts)
      have hcap : (0:ℚ) ≤ t.upper - t.lower := sub_nonneg.mpr hlu
      have hmin : 0 ≤ min r (t.upper - t.lower) := le_min hr.le hcap
      have hrec := ih (fun x hx => h x (List.mem_cons_of_mem _ hx)) (r - min r (t.upper - t.lower))
      have hterm := mul_nonneg hmin hrate
      linarith

lemma flexAccum_mono (ts : List Tier) :
    (∀ t ∈ ts, 0 ≤ t.rate ∧ t.lower ≤ t.upper) →
    ∀ a b : ℚ, a ≤ b → flexAccum ts a ≤ flexAccum ts b := by
  induction ts with
  | nil => intro _ a b _; simp [flexAccum]
  | cons t ts ih =>
    intro h a b hab
    obtain ⟨hrate, hlu⟩ := h t (List.mem_cons_self t ts)
    have hcap : (0:ℚ) ≤ t.upper - t.lower := sub_nonneg.mpr hlu
    have htail := fun x hx => h x (List.mem_cons_of_mem _ hx)
    rw [flexAccum_cons, flexAccum_cons]
    by_cases ha : a ≤ 0
    · rw [if_pos ha]
      by_cases hb : b ≤ 0
      · rw [if_pos hb]
      · rw [if_neg hb]
        push_neg at hb
        have hminb : 0 ≤ min b (t.upper - t.lower) := le_min hb.le hcap
        have h1 := flexAccum_nonneg ts htail (b - min b (t.upper - t.lower))
        have h2 := mul_nonneg hminb hrate
        linarith
    · push_neg at ha
      have hb : ¬ b ≤ 0 := by linarith
      rw [if_neg (by linarith : ¬ a ≤ 0), if_neg hb]
      have hminmono : min a (t.upper - t.lower) ≤ min b (t.upper - t.lower) :=
        min_le_min hab le_rfl
      have hterm : min a (t.upper - t.lower) * t.rate ≤ min b (t.upper - t.lower) * t.rate :=
        mul_le_mul_of_nonneg_right hminmono hrate
      have hrem : a - min a (t.upper - t.lower) ≤ b - min b (t.upper - t.lower) := by
        rcases le_total a (t.upper - t.lower) with hac | hac
        · rw [min_eq_left hac]
          have := min_le_left b (t.upper - t.lower)
          linarith
        · rw [min_eq_right hac, min_eq_right (le_trans hac hab)]
          linarith
      have hrec := ih htail _ _ hrem
      linarith

lemma flexAccum_at_125000 : flexAccum TIERS 125000 = 4125 := by
  norm_num [flexAccum, TIERS, min_def]

/-- C5: `flexPrice` is monotonically non-decreasing: for all spend amounts
`a` and `b` with `0 ≤ a ≤ b`, `flexPrice a ≤ flexPrice b`. -/
theorem flexPrice_monotone (a b : ℚ) (ha : 0 ≤ a) (hab : a ≤ b) :
    flexPrice a ≤ flexPrice b := by
  have hmono := flexAccum_mono TIERS tiersOK a b hab
  simp only [flexPrice, calculate_flex_price]
  by_cases hb : b ≤ 125000
  · rw [if_pos (le_trans hab hb), if_pos hb]
    exact max_le_max hmono le_rfl
  · rw [if_neg hb]
    push_neg at hb
    have hge : (4125:ℚ) ≤ flexAccum TIERS b :=
      flexAccum_at_125000 ▸ flexAccum_mono TIERS tiersOK 125000 b hb.le
    by_cases haa : a ≤ 125000
    · rw [if_pos haa]
      exact max_le hmono (by linarith)
    · rw [if_neg haa]
      exact hmono

/-- Witness for C5 at the concrete pair (50000, 200000). -/
theorem flexPrice_monotone_witness :
    (0:ℚ) ≤ 50000 ∧ (50000:ℚ) ≤ 200000 ∧ flexPrice 50000 ≤ flexPrice 200000 :=
  ⟨by norm_num, by norm_num, flexPrice_monotone 50000 200000 (by norm_num) (by norm_num)⟩

lemma foldl_flexStep (ts : List Tier) :
    (∀ t ∈ ts, t.lower ≤ t.upper) → ∀ acc r : ℚ, 0 ≤ r →
      (ts.foldl flexStep (acc, r)).1 = acc + flexAccum ts r := by
  induction ts with
  | nil => intro _ acc r _; simp [flexAccum]
  | cons t ts ih =>
    intro h acc r hr
    have hlu := h t (List.mem_cons_self t ts)
    have hcap : (0:ℚ) ≤ t.upper - t.lower := sub_nonneg.mpr hlu
    have htail := fun x hx => h x (List.mem_cons_of_mem _ hx)
    rw [List.foldl_cons, flexAccum_cons]
    by_cases hr0 : r ≤ 0
    · have hreq : r = 0 := le_antisymm hr0 hr
      subst hreq
      rw [if_pos le_rfl, add_zero]
      have hstep : flexStep (acc, (0:ℚ)) t = (acc, 0) := by
        simp [flexStep, min_eq_left hcap]
      rw [hstep, ih htail acc 0 le_rfl, flexAccum_nonpos ts 0 le_rfl, add_zero]
    · rw [if_neg hr0]
      have hstep : flexStep (acc, r) t =
          (acc + min r (t.upper - t.lower) * t.rate, r - min r (t.upper - t.lower)) := rfl
      have hrem : 0 ≤ r - min r (t.upper - t.lower) := by
        have := min_le_left r (t.upper - t.lower)
        linarith
      rw [hstep, ih htail _ _ hrem]
      ring

/-- C1: for every spend ≥ 0, `flexPrice` equals the spec's piecewise tier
accumulation with the 2500 minimum-invoice clip applied exactly when
`spend ≤ 125000`; in particular `flexPrice 50000 = 2500` and
`flexPrice 200000 = 6487.5`. -/
theorem flexPrice_piecewise (spend : ℚ) (hs : 0 ≤ spend) :
    flexPrice spend = flexPriceSpec spend ∧
    flexPrice 50000 = 2500 ∧ flexPrice 200000 = 6487.5 := by
  refine ⟨?_, ?_, ?_⟩
  · simp only [flexPrice, calculate_flex_price, flexPriceSpec]
    rw [foldl_flexStep TIERS (fun t ht => (tiersOK t ht).2) 0 spend hs, zero_add]
  · norm_num [flexPrice, calculate_flex_price, flexAccum, TIERS, min_def, max_def]
  · norm_num [flexPrice, calculate_flex_price, flexAccum, TIERS, min_def, max_def]

/-- Witness for C1 at the concrete spend 200000. -/
theorem flexPrice_piecewise_witness :
    (0:ℚ) ≤ 200000 ∧
    (flexPrice 200000 = flexPriceSpec 200000 ∧
     flexPrice 50000 = 2500 ∧ flexPrice 200000 = 6487.5) :=
  ⟨by norm_num, flexPrice_piecewise 200000 (by norm_num)⟩

lemma find?_upperGE (c : ℚ) : ∀ ts : List Tier,
    ts.find? (fun t => decide (c ≤ t.upper)) = firstTierUpperGE c ts := by
  intro ts
  induction ts with
  | nil => rfl
  | cons t ts ih =>
    by_cases hc : c ≤ t.upper
    · rw [List.find?_cons_of_pos _ (by simpa using hc)]
      simp only [firstTierUpperGE, if_pos hc]
    · rw [List.find?_cons_of_neg _ (by simpa using hc)]
      simp only [firstTierUpperGE, if_neg hc]
      exact ih

/-- C2: for spend ≥ 0 and commitAmount > 0, `commitPrice` is the committed
block `min spend commitAmount` billed at the rate of the first tier whose
upper bound is at least commitAmount (last tier if none), plus a fresh
`flexPrice` call on the overflow when spend exceeds the commitment and 0
otherwise; no minimum-invoice floor is applied to the combined total. -/
theorem commitPrice_formula (s c : ℚ) (hs : 0 ≤ s) (hc : 0 < c) :
    commitPrice s c =
      min s c * commitRateSpec c + (if c < s then flexPrice (s - c) else 0) := by
  simp only [commitPrice, calculate_commit_price, commitRateSpec, flexPrice]
  rw [if_neg hc.ne', find?_upperGE]

/-- Witness for C2 at the concrete pair (200000, 50000). -/
theorem commitPrice_formula_witness :
    commitPrice 200000 50000 =
      min 200000 50000 * commitRateSpec 50000 +
        (if (50000:ℚ) < 200000 then flexPrice (200000 - 50000) else 0) :=
  commitPrice_formula 200000 50000 (by norm_num) (by norm_num)

/-- C3: zero-commit equivalence: for every spend ≥ 0,
`commitPrice spend 0 = flexPrice spend` exactly. -/
theorem commitPrice_zero_commit (s : ℚ) (hs : 0 ≤ s) :
    commitPrice s 0 = flexPrice s := by
  simp only [commitPrice, calculate_commit_price, flexPrice, if_pos rfl, if_true]

/-- Witness for C3 at the spec's Scenario 4 spend of 500000. -/
theorem commitPrice_zero_commit_witness :
    (0:ℚ) ≤ 500000 ∧ commitPrice 500000 0 = flexPrice 500000 :=
  ⟨by norm_num, commitPrice_zero_commit 500000 (by norm_num)⟩

/-- C6 counterexample: at spend = 0 and commitAmount = 0 (which satisfies
spend ≤ commitAmount), `commitPrice` returns the floored flex price 2500,
not `min spend commitAmount * rate(tier containing commitAmount) = 0`. -/
theorem commitPrice_fullCommit_counterexample :
    commitPrice 0 0 = 2500 ∧
    min (0:ℚ) 0 * rateOfTierContaining 0 = 0 ∧ (2500:ℚ) ≠ 0 := by
  refine ⟨?_, by simp, by norm_num⟩
  norm_num [commitPrice, calculate_commit_price, calculate_flex_price, flexAccum,
    TIERS, max_def]

/-- C6 amended: for spend ≤ commitAmount with commitAmount > 0,
`commitPrice` equals `min spend commitAmount` times the rate of the first
tier whose upper bound is at least commitAmount (the tier containing
commitAmount whenever one contains it), with zero overflow contribution. -/
theorem commitPrice_fullCommit (s c : ℚ) (hsc : s ≤ c) (hc : 0 < c) :
    commitPrice s c = min s c * commitRateSpec c := by
  simp only [commitPrice, calculate_commit_price, commitRateSpec]
  rw [if_neg hc.ne', find?_upperGE, if_neg (not_lt.mpr hsc), add_zero]

/-- Witness for C6 (amended) at the concrete pair (50000, 125000). -/
theorem commitPrice_fullCommit_witness :
    commitPrice 50000 125000 = min 50000 125000 * commitRateSpec 125000 :=
  commitPrice_fullCommit 50000 125000 (by norm_num) (by norm_num)

/-- C9: the shipped `TIERS` table has exactly 26 tiers spanning $0 to
$250,000,000, starts at lower bound 0, is sorted ascending, adjacent tiers
satisfy `next.lower = this.upper + 1`, rates are strictly decreasing, and
every TierTable validity invariant holds. -/
theorem shipped_table_invariants :
    TIERS.length = 26 ∧
    TIERS.head?.map Tier.lower = some 0 ∧
    TIERS.getLast?.map Tier.upper = some 250000000 ∧
    sortedAscending TIERS = true ∧
    contiguousTiers TIERS = true ∧
    ratesStrictDecreasing TIERS = true ∧
    validTierTable TIERS = true := by
  refine ⟨by norm_num [TIERS], by norm_num [TIERS], ?_, ?_, ?_, ?_, ?_⟩
  · norm_num [TIERS, List.getLast?]
  · norm_num [sortedAscending, TIERS]
  · norm_num [contiguousTiers, TIERS]
  · norm_num [ratesStrictDecreasing, TIERS]
  · norm_num [validTierTable, sortedAscending, contiguousTiers, TIERS, List.all]

/-- C8 counterexample: the empty tier sequence violates the TierTable
invariants, yet `__init__` accepts it without a `ConfigurationError`. -/
theorem init_accepts_invalid :
    PricingCalculator.init [] = Except.ok ⟨[]⟩ ∧ validTierTable [] = false :=
  ⟨rfl, rfl⟩

/-- C8 amended: `PricingCalculator.__init__` performs no validation at all:
every tier sequence, valid or invalid, is accepted unchanged and no
`ConfigurationError` is ever raised. -/
theorem init_no_validation (tiers : List Tier) :
    PricingCalculator.init tiers = Except.ok ⟨tiers⟩ := rfl

lemma flexPrice_of_neg (s : ℚ) (hs : s < 0) : flexPrice s = 2500 := by
  simp only [flexPrice, calculate_flex_price,
    flexAccum_nonpos TIERS s hs.le, if_pos (by linarith : s ≤ 125000)]
  exact max_eq_right (by norm_num)

/-- C10: for every negative spend, the accumulation loop contributes nothing
and the minimum-invoice branch applies, so `flexPrice` returns exactly 2500
rather than 0, a negative cost, or an error. -/
theorem flexPrice_negative (s : ℚ) (hs : s < 0) :
    flexAccum TIERS s = 0 ∧ flexPrice s = 2500 :=
  ⟨flexAccum_nonpos TIERS s hs.le, flexPrice_of_neg s hs⟩

/-- Witness for C10 at the concrete spend -1. -/
theorem flexPrice_negative_witness :
    (-1:ℚ) < 0 ∧ (flexAccum TIERS (-1) = 0 ∧ flexPrice (-1) = 2500) :=
  ⟨by norm_num, flexPrice_negative (-1) (by norm_num)⟩

lemma find?_contains_none_of_neg (s : ℚ) (hs : s < 0) :
    TIERS.find? (tierContains s) = none := by
  rw [List.find?_eq_none]
  intro t ht hcontra
  simp only [tierContains, Bool.and_eq_true, decide_eq_true_eq] at hcontra
  have := tiersLowerNonneg t ht
  linarith [hcontra.1]

lemma getLastD_TIERS : TIERS.getLastD dummyTier = ⟨208333334, 250000000, 0.0034⟩ := by
  norm_num [TIERS, List.getLastD]

lemma findIdx_last_TIERS :
    TIERS.findIdx (fun t => decide (t = (⟨208333334, 250000000, 0.0034⟩ : Tier))) = 25 := by
  norm_num [TIERS, List.findIdx_cons, Tier.mk.injEq]

lemma recommend_fallback (s : ℚ) (h : TIERS.find? (tierContains s) = none) :
    recommend_commit_tier TIERS s = 250000000 := by
  simp only [recommend_commit_tier, h, Option.getD_none, getLastD_TIERS, findIdx_last_TIERS]
  norm_num [TIERS]

/-- C4 counterexample: each of the three operations silently returns a value
on negative spend instead of raising `InvalidArgument`: `flexPrice (-1)`
returns the floor 2500, `commitPrice (-1) 0` returns 2500, and
`recommendCommitTier (-1)` returns the last tier's upper bound. -/
theorem negative_input_counterexample :
    flexPrice (-1) = 2500 ∧ commitPrice (-1) 0 = 2500 ∧
    recommendCommitTier (-1) = 250000000 := by
  refine ⟨flexPrice_of_neg (-1) (by norm_num), ?_, ?_⟩
  · simp only [commitPrice, calculate_commit_price, if_pos rfl, if_true]
    exact flexPrice_of_neg (-1) (by norm_num)
  · rw [recommendCommitTier,
      recommend_fallback (-1) (find?_contains_none_of_neg (-1) (by norm_num))]

/-- C4 amended: no input validation exists; for every negative spend the
engine silently answers — `flexPrice` returns the 2500 floor, zero-commit
`commitPrice` likewise, `recommendCommitTier` returns the last tier's upper
bound 250000000 — and a negative commitAmount is likewise accepted, e.g.
`commitPrice 0 (-1) = 2500 - 33/1000`. -/
theorem no_invalid_argument_raised (s : ℚ) (hs : s < 0) :
    flexPrice s = 2500 ∧ commitPrice s 0 = 2500 ∧
    recommendCommitTier s = 250000000 ∧
    commitPrice 0 (-1) = 2500 - 33/1000 := by
  refine ⟨flexPrice_of_neg s hs, ?_, ?_, ?_⟩
  · simp only [commitPrice, calculate_commit_price, if_pos rfl, if_true]
    exact flexPrice_of_neg s hs
  · rw [recommendCommitTier, recommend_fallback s (find?_contains_none_of_neg s hs)]
  · norm_num [commitPrice, calculate_commit_price, calculate_flex_price, flexAccum,
      TIERS, List.find?, min_def, max_def]

/-- Witness for C4 (amended) at the concrete spend -1. -/
theorem no_invalid_argument_raised_witness :
    (-1:ℚ) < 0 ∧
    (flexPrice (-1) = 2500 ∧ commitPrice (-1) 0 = 2500 ∧
     recommendCommitTier (-1) = 250000000 ∧
     commitPrice 0 (-1) = 2500 - 33/1000) :=
  ⟨by norm_num, no_invalid_argument_raised (-1) (by norm_num)⟩

lemma recommendAux_none (s : ℚ) : ∀ ts : List Tier,
    ts.find? (tierContains s) = none → recommendAux s ts = none := by
  intro ts
  induction ts with
  | nil => intro _; rfl
  | cons t ts ih =>
    intro h
    have hpt : tierContains s t = false := by
      cases hpt : tierContains s t
      · rfl
      · rw [List.find?_cons_of_pos _ hpt] at h
        exact Option.noConfusion h
    rw [List.find?_cons_of_neg _ (by simp [hpt])] at h
    simp only [recommendAux, hpt, Bool.false_eq_true, if_false]
    exact ih h

lemma recommendAux_isSome (s : ℚ) : ∀ (ts : List Tier) (c : Tier),
    ts.find? (tierContains s) = some c → (recommendAux s ts).isSome = true := by
  intro ts
  induction ts with
  | nil => intro c h; exact Option.noConfusion h
  | cons t ts ih =>
    intro c h
    cases hpt : tierContains s t with
    | true =>
      cases ts with
      | nil => simp [recommendAux, hpt]
      | cons nt ts2 => simp [recommendAux, hpt]
    | false =>
      rw [List.find?_cons_of_neg _ (by simp [hpt])] at h
      simp only [recommendAux, hpt, Bool.false_eq_true, if_false]
      exact ih c h

lemma recommend_src_eq_aux (s : ℚ) : ∀ ts : List Tier,
    (ts.find? (tierContains s)).isSome = true →
    recommend_commit_tier ts s = (recommendAux s ts).getD ((ts.getLastD dummyTier).upper) := by
  intro ts
  induction ts with
  | nil => intro h; simp at h
  | cons t ts ih =>
    intro h
    cases hpt : tierContains s t with
    | true =>
      have hfind : (t :: ts).find? (tierContains s) = some t :=
        List.find?_cons_of_pos _ hpt
      have hidx : (t :: ts).findIdx (fun x => decide (x = t)) = 0 := by
        rw [List.findIdx_cons]
        simp
      cases ts with
      | nil =>
        simp only [recommend_commit_tier, hfind, Option.getD_some, hidx]
        simp [recommendAux, hpt]
      | cons nt ts2 =>
        simp only [recommend_commit_tier, hfind, Option.getD_some, hidx]
        simp [recommendAux, hpt]
    | false =>
      have hfind : (t :: ts).find? (tierContains s) = ts.find? (tierContains s) :=
        List.find?_cons_of_neg _ (by simp [hpt])
      have h2 : (ts.find? (tierContains s)).isSome = true := by
        rw [← hfind]; exact h
      obtain ⟨c, hc⟩ := Option.isSome_iff_exists.mp h2
      have hpc : tierContains s c = true := List.find?_some hc
      have hct : decide (t = c) = false := by
        apply decide_eq_false
        intro he
        rw [← he, hpt] at hpc
        exact Bool.noConfusion hpc
      have hmem : c ∈ ts := List.mem_of_find?_eq_some hc
      have hne : ts ≠ [] := List.ne_nil_of_mem hmem
      have hlen0 : 0 < ts.length := List.length_pos.mpr hne
      have haux : recommendAux s (t :: ts) = recommendAux s ts := by
        simp [recommendAux, hpt]
      obtain ⟨r, hr⟩ := Option.isSome_iff_exists.mp (recommendAux_isSome s ts c hc)
      have hihs := ih h2
      rw [hr, Option.getD_some] at hihs
      rw [haux, hr, Option.getD_some, ← hihs]
      simp only [recommend_commit_tier, hfind, hc, Option.getD_some]
      have hidx : (t :: ts).findIdx (fun x => decide (x = c)) =
          ts.findIdx (fun x => decide (x = c)) + 1 := by
        rw [List.findIdx_cons, hct]
        rfl
      rw [hidx]
      have hlencond : (ts.findIdx (fun x => decide (x = c)) + 1 < (t :: ts).length - 1) ↔
          (ts.findIdx (fun x => decide (x = c)) < ts.length - 1) := by
        simp only [List.length_cons, Nat.add_sub_cancel]
        omega
      by_cases hcase : ts.findIdx (fun x => decide (x = c)) < ts.length - 1
      · rw [if_pos (hlencond.mpr hcase), if_pos hcase, List.getElem?_cons_succ]
      · rw [if_neg (fun hx => hcase (hlencond.mp hx)), if_neg hcase]

/-- C7: for every spend ≥ 0, the source recommendation (first containing
tier via `find?`, index lookup, next-tier rule at 80% of the current upper
bound) coincides with the spec's walk `recommendSpec`; in particular
`recommendCommitTier 110000 = 250000`. -/
theorem recommend_spec_correct (s : ℚ) (hs : 0 ≤ s) :
    recommendCommitTier s = recommendSpec s ∧ recommendCommitTier 110000 = 250000 := by
  constructor
  · cases hfind : TIERS.find? (tierContains s) with
    | none =>
      have h1 : recommendCommitTier s = 250000000 := by
        rw [recommendCommitTier]
        exact recommend_fallback s hfind
      have h2 : recommendSpec s = 250000000 := by
        simp only [recommendSpec, recommendAux_none s TIERS hfind, getLastD_TIERS]
      rw [h1, h2]
    | some c =>
      have hsome : (TIERS.find? (tierContains s)).isSome = true := by
        rw [hfind]
        rfl
      obtain ⟨r, hr⟩ := Option.isSome_iff_exists.mp (recommendAux_isSome s TIERS c hfind)
      rw [recommendCommitTier, recommend_src_eq_aux s TIERS hsome]
      simp only [recommendSpec, hr, Option.getD_some]
  · norm_num [recommendCommitTier, recommend_commit_tier, TIERS, tierContains,
      List.find?, List.findIdx_cons, Tier.mk.injEq]

/-- Witness for C7 at the spec's Scenario 5 spend of 110000. -/
theorem recommend_spec_correct_witness :
    (0:ℚ) ≤ 110000 ∧
    (recommendCommitTier 110000 = recommendSpec 110000 ∧
     recommendCommitTier 110000 = 250000) :=
  ⟨by norm_num, recommend_spec_correct 110000 (by norm_num)⟩
